import Mathlib

/-!
Verification of the LIF (leaky integrate-and-fire) spiking-network simulator
from the notebook `exercises/exe_02_jit.ipynb`.

The numerics are embedded over `ℚ` (exact arithmetic in place of the floats
of the original), membrane-potential vectors over `Fin n → ℚ`, spike masks
over `Fin n → Bool`, and the spike train as a `List` of masks.

Two embeddings are given:
* `LIF.*` — the main model with shape-correct, length-indexed vectors,
  used for the functional claims;
* `LIFShapes.*` — a list-based model that tracks array shapes and the
  dimension-mismatch / broadcasting behaviour of the underlying array
  library, used for the error-handling claims.
-/

namespace LIF

/-- Boolean spikes are treated as 0/1 in arithmetic (`W.dot(spiked)`). -/
def boolVal (b : Bool) : ℚ := if b then 1 else 0

/-- Spike detection of one step: `spiked = v_prev >= v_thresh`, elementwise
against the step-entry potentials. -/
def spikeDetect (n : ℕ) (v_prev : Fin n → ℚ) (v_thresh : ℚ) : Fin n → Bool :=
  fun i => decide (v_prev i ≥ v_thresh)

/-- Pre-injection reset: `V = jnp.where(spiked, v_reset, v_prev)`. -/
def resetWhere (n : ℕ) (spiked : Fin n → Bool) (v_reset : ℚ) (v : Fin n → ℚ) :
    Fin n → ℚ :=
  fun i => if spiked i then v_reset else v i

/-- Synaptic current: `I_syn = W.dot(spiked)` with the boolean spike vector
treated as 0/1. -/
def synCurrent (n : ℕ) (W : Fin n → Fin n → ℚ) (spiked : Fin n → Bool) :
    Fin n → ℚ :=
  fun i => ∑ j, W i j * boolVal (spiked j)

/-- The forward-Euler increment of one step, computed from the post-reset
potentials: `dV = (dt / tau_m) * (-V + v_reset + membr_R * I_syn)`. -/
def stepdV (n : ℕ) (v_prev : Fin n → ℚ) (v_thresh v_reset : ℚ)
    (W : Fin n → Fin n → ℚ) (tau_m dt membr_R : ℚ) : Fin n → ℚ :=
  let spiked := spikeDetect n v_prev v_thresh
  let V := resetWhere n spiked v_reset v_prev
  let I_syn := synCurrent n W spiked
  fun i => (dt / tau_m) * (-(V i) + v_reset + membr_R * I_syn i)

/-- One simulation step, translated from `run_step` of the notebook:
```
spiked = v_prev >= v_thresh
V = jnp.where(spiked, v_reset, v_prev)
I_syn = W.dot(spiked)
dV = (dt / tau_m) * (-V + v_reset + membr_R * I_syn)
V = V + dV
V = jnp.where(spiked, v_reset, V)
return V, spiked
``` -/
def run_step (n : ℕ) (v_prev : Fin n → ℚ) (v_thresh v_reset : ℚ)
    (W : Fin n → Fin n → ℚ) (tau_m dt membr_R : ℚ) :
    (Fin n → ℚ) × (Fin n → Bool) :=
  let spiked := spikeDetect n v_prev v_thresh
  let V := resetWhere n spiked v_reset v_prev
  let dV := stepdV n v_prev v_thresh v_reset W tau_m dt membr_R
  let V2 := fun i => V i + dV i
  let V3 := resetWhere n spiked v_reset V2
  (V3, spiked)

/-- Number of simulated time points: the length of `jnp.arange(0, t_max, dt)`,
which is `⌈t_max / dt⌉` clamped at 0. -/
def numTimePoints (t_max dt : ℚ) : ℕ := (⌈t_max / dt⌉).toNat

/-- Number of recorded steps: the loop skips the `i == 0` time point. -/
def numRecorded (t_max dt : ℚ) : ℕ := numTimePoints t_max dt - 1

/-- The driver loop of the first `run_simulation` variant: `k` remaining
steps, each delegated to `run_step`, accumulating the spike train. -/
def simSteps (n : ℕ) (W : Fin n → Fin n → ℚ)
    (tau_m v_reset v_thresh membr_R dt : ℚ) :
    ℕ → (Fin n → ℚ) → List (Fin n → Bool)
  | 0, _ => []
  | k + 1, V =>
    let r := run_step n V v_thresh v_reset W tau_m dt membr_R
    r.2 :: simSteps n W tau_m v_reset v_thresh membr_R dt k r.1

/-- The first `run_simulation` variant (notebook cell with `run_step`):
iterates over `jnp.arange(0, t_max, dt)`, skips the first time point, calls
`run_step` once per remaining time point, returns the appended spike train. -/
def run_simulation (n : ℕ) (W : Fin n → Fin n → ℚ) (V : Fin n → ℚ)
    (tau_m v_reset v_thresh membr_R t_max dt : ℚ) : List (Fin n → Bool) :=
  simSteps n W tau_m v_reset v_thresh membr_R dt (numTimePoints t_max dt - 1) V

/-- The loop body of the second (inlined) `run_simulation` variant, written
out line by line as in the notebook:
```
fired = V >= v_thresh
V = jnp.where(fired, v_reset, V)
spike_train.append(fired)
I_syn = W.dot(spike_train[-1])
dV = (dt / tau_m) * (-V + v_reset + membr_R * I_syn)
V += dV
V = jnp.where(fired, v_reset, V)
```
(`spike_train[-1]` is the just-appended `fired`). -/
def simSteps2 (n : ℕ) (W : Fin n → Fin n → ℚ)
    (tau_m v_reset v_thresh membr_R dt : ℚ) :
    ℕ → (Fin n → ℚ) → List (Fin n → Bool)
  | 0, _ => []
  | k + 1, V =>
    let fired := fun i => decide (V i ≥ v_thresh)
    let V1 := fun i => if fired i then v_reset else V i
    let I_syn := fun i => ∑ j, W i j * boolVal (fired j)
    let dV := fun i => (dt / tau_m) * (-(V1 i) + v_reset + membr_R * I_syn i)
    let V2 := fun i => V1 i + dV i
    let V3 := fun i => if fired i then v_reset else V2 i
    fired :: simSteps2 n W tau_m v_reset v_thresh membr_R dt k V3

/-- The second `run_simulation` variant (inlined body, appending the spike
mask before the voltage update). -/
def run_simulation2 (n : ℕ) (W : Fin n → Fin n → ℚ) (V : Fin n → ℚ)
    (tau_m v_reset v_thresh membr_R t_max dt : ℚ) : List (Fin n → Bool) :=
  simSteps2 n W tau_m v_reset v_thresh membr_R dt (numTimePoints t_max dt - 1) V

/-- The potential carried from one step to the next: the first component of
`run_step`. -/
def stepV (n : ℕ) (W : Fin n → Fin n → ℚ)
    (tau_m v_reset v_thresh membr_R dt : ℚ) (V : Fin n → ℚ) : Fin n → ℚ :=
  (run_step n V v_thresh v_reset W tau_m dt membr_R).1

/-- The loop-carried potential vector after `k` executed steps (`k = 0` is
the initial condition). -/
def potentialAfter (n : ℕ) (W : Fin n → Fin n → ℚ)
    (tau_m v_reset v_thresh membr_R dt : ℚ) (V0 : Fin n → ℚ) (k : ℕ) :
    Fin n → ℚ :=
  (stepV n W tau_m v_reset v_thresh membr_R dt)^[k] V0

/-- The spike mask recorded at (0-based) step `k`: spike detection applied to
the potentials at entry of that step. -/
def maskAt (n : ℕ) (W : Fin n → Fin n → ℚ)
    (tau_m v_reset v_thresh membr_R dt : ℚ) (V0 : Fin n → ℚ) (k : ℕ) :
    Fin n → Bool :=
  (run_step n (potentialAfter n W tau_m v_reset v_thresh membr_R dt V0 k)
    v_thresh v_reset W tau_m dt membr_R).2

/-- The per-step update rule of §4.1, stated of recorded step `k` of a run:
(a) the recorded mask is spike detection against the step-entry potentials;
(b) a non-spiking neuron ends the step at
`V[i] + (dt/tau_m)·(−V[i] + v_reset + membr_R·I_syn[i])` with `V[i]` its
step-entry potential; (c) for a spiking neuron the forward-Euler increment
is computed from the just-reset potential `v_reset`, not its pre-spike one. -/
def stepRule (n : ℕ) (W : Fin n → Fin n → ℚ) (V0 : Fin n → ℚ)
    (tau_m v_reset v_thresh membr_R t_max dt : ℚ) (k : ℕ) : Prop :=
  let Vk := potentialAfter n W tau_m v_reset v_thresh membr_R dt V0 k
  let sp := (run_simulation n W V0 tau_m v_reset v_thresh membr_R t_max dt).getD
    k (fun _ => false)
  (∀ i, sp i = decide (Vk i ≥ v_thresh)) ∧
  (∀ i, sp i = false →
      potentialAfter n W tau_m v_reset v_thresh membr_R dt V0 (k + 1) i =
        Vk i + dt / tau_m * (-(Vk i) + v_reset + membr_R * synCurrent n W sp i)) ∧
  (∀ i, sp i = true →
      stepdV n Vk v_thresh v_reset W tau_m dt membr_R i =
        dt / tau_m * (-v_reset + v_reset + membr_R * synCurrent n W sp i))

/-- No-spike quiescence property of a run: every recorded mask is everywhere
false, the distance of every potential to `v_reset` never increases from one
step to the next, and a potential never crosses to the far side of
`v_reset`. -/
def quiescentDecay (n : ℕ) (W : Fin n → Fin n → ℚ) (V0 : Fin n → ℚ)
    (tau_m v_reset v_thresh membr_R t_max dt : ℚ) : Prop :=
  (∀ k, k < numRecorded t_max dt → ∀ i,
    (run_simulation n W V0 tau_m v_reset v_thresh membr_R t_max dt).getD k
      (fun _ => false) i = false) ∧
  (∀ k i,
    |potentialAfter n W tau_m v_reset v_thresh membr_R dt V0 (k + 1) i -
        v_reset| ≤
      |potentialAfter n W tau_m v_reset v_thresh membr_R dt V0 k i -
        v_reset|) ∧
  (∀ k i,
    0 ≤ (potentialAfter n W tau_m v_reset v_thresh membr_R dt V0 k i -
          v_reset) *
        (potentialAfter n W tau_m v_reset v_thresh membr_R dt V0 (k + 1) i -
          v_reset))

/-- The weight matrix `[[0,5],[5,0]]` of the two-neuron feedback scenario. -/
def twoNeuronW : Fin 2 → Fin 2 → ℚ := ![![0, 5], ![5, 0]]

/-- The initial potentials `[1.5, 0]` of the two-neuron feedback scenario. -/
def twoNeuronV0 : Fin 2 → ℚ := ![3 / 2, 0]

end LIF

namespace LIFShapes

/-- Error value standing for the dimension-mismatch exception the array
library raises on incompatible shapes. -/
def dimErr : String := "dimension mismatch"

/-- Elementwise combination of two 1-D arrays under the library's
broadcasting rule restricted to rank 1: equal lengths combine pointwise, a
length-1 array broadcasts against the other, anything else raises a
dimension-mismatch error. -/
def bcZip (f : ℚ → ℚ → ℚ) (a b : List ℚ) : Except String (List ℚ) :=
  if a.length = b.length then .ok (List.zipWith f a b)
  else
    match a, b with
    | [x], b => .ok (b.map (fun y => f x y))
    | a, [y] => .ok (a.map (fun x => f x y))
    | _, _ => .error dimErr

/-- `jnp.where(cond, x, v)` with scalar `x`: the boolean mask broadcasts
against `v` under the same rank-1 rule. -/
def whereV (c : List Bool) (x : ℚ) (v : List ℚ) : Except String (List ℚ) :=
  if c.length = v.length then
    .ok (List.zipWith (fun b y => if b then x else y) c v)
  else
    match c, v with
    | [b], v => .ok (v.map (fun y => if b then x else y))
    | c, [y] => .ok (c.map (fun b => if b then x else y))
    | _, _ => .error dimErr

/-- `W.dot(s)` for a 2-D `W` and 1-D boolean `s` (treated as 0/1): the
contraction requires every row length to equal the vector length; no
broadcasting applies to `dot`. -/
def dotMV (W : List (List ℚ)) (s : List Bool) : Except String (List ℚ) :=
  if W.all (fun row => row.length == s.length) then
    .ok (W.map (fun row =>
      (List.zipWith (fun w b => w * (if b then (1 : ℚ) else 0)) row s).sum))
  else .error dimErr

/-- One simulation step in the shape-tracking model, line by line the body
of `run_step`; each array operation may raise a dimension-mismatch error. -/
def run_step (v_prev : List ℚ) (v_thresh v_reset : ℚ) (W : List (List ℚ))
    (tau_m dt membr_R : ℚ) : Except String (List ℚ × List Bool) := do
  let spiked := v_prev.map (fun x => decide (x ≥ v_thresh))
  let V ← whereV spiked v_reset v_prev
  let I_syn ← dotMV W spiked
  let s ← bcZip (fun x y => x + y) (V.map (fun x => -x + v_reset))
    (I_syn.map (fun x => membr_R * x))
  let dV := s.map (fun x => dt / tau_m * x)
  let V2 ← bcZip (fun x y => x + y) V dV
  let V3 ← whereV spiked v_reset V2
  return (V3, spiked)

/-- Driver loop of `run_simulation` in the shape-tracking model: `k`
remaining steps; the first error aborts the run. -/
def simLoopS (W : List (List ℚ)) (tau_m v_reset v_thresh membr_R dt : ℚ) :
    ℕ → List ℚ → Except String (List (List Bool))
  | 0, _ => .ok []
  | k + 1, V => do
    let r ← run_step V v_thresh v_reset W tau_m dt membr_R
    let rest ← simLoopS W tau_m v_reset v_thresh membr_R dt k r.1
    return r.2 :: rest

/-- `run_simulation` in the shape-tracking model: same loop count as the
main model (`⌈t_max/dt⌉` time points, the first skipped). -/
def run_simulationS (W : List (List ℚ)) (V : List ℚ)
    (tau_m v_reset v_thresh membr_R t_max dt : ℚ) :
    Except String (List (List Bool)) :=
  simLoopS W tau_m v_reset v_thresh membr_R dt (LIF.numTimePoints t_max dt - 1) V

end LIFShapes

namespace LIF

theorem simSteps_length (n : ℕ) (W : Fin n → Fin n → ℚ)
    (tau_m v_reset v_thresh membr_R dt : ℚ) (k : ℕ) (V : Fin n → ℚ) :
    (simSteps n W tau_m v_reset v_thresh membr_R dt k V).length = k := by
  induction k generalizing V with
  | zero => rfl
  | succ k ih => simp [simSteps, ih]

theorem run_simulation_length (n : ℕ) (W : Fin n → Fin n → ℚ) (V : Fin n → ℚ)
    (tau_m v_reset v_thresh membr_R t_max dt : ℚ) :
    (run_simulation n W V tau_m v_reset v_thresh membr_R t_max dt).length =
      numRecorded t_max dt := by
  unfold run_simulation numRecorded
  exact simSteps_length ..

theorem simSteps_getD (n : ℕ) (W : Fin n → Fin n → ℚ)
    (tau_m v_reset v_thresh membr_R dt : ℚ) (k : ℕ) (V : Fin n → ℚ)
    (j : ℕ) (hj : j < k) :
    (simSteps n W tau_m v_reset v_thresh membr_R dt k V).getD j (fun _ => false) =
      maskAt n W tau_m v_reset v_thresh membr_R dt V j := by
  induction k generalizing V j with
  | zero => omega
  | succ k ih =>
    cases j with
    | zero => rfl
    | succ j =>
      have hj' : j < k := by omega
      have := ih (stepV n W tau_m v_reset v_thresh membr_R dt V) j hj'
      simpa [simSteps, maskAt, potentialAfter, Function.iterate_succ_apply,
        stepV] using this

theorem run_simulation_getD (n : ℕ) (W : Fin n → Fin n → ℚ) (V : Fin n → ℚ)
    (tau_m v_reset v_thresh membr_R t_max dt : ℚ) (j : ℕ)
    (hj : j < numRecorded t_max dt) :
    (run_simulation n W V tau_m v_reset v_thresh membr_R t_max dt).getD j
        (fun _ => false) =
      maskAt n W tau_m v_reset v_thresh membr_R dt V j := by
  unfold run_simulation
  exact simSteps_getD n W tau_m v_reset v_thresh membr_R dt _ V j hj

theorem numTimePoints_eq (t_max dt : ℚ) (c : ℤ) (h : ⌈t_max / dt⌉ = c) :
    numTimePoints t_max dt = c.toNat := by
  unfold numTimePoints
  rw [h]

theorem numRecorded_eq (t_max dt : ℚ) (c : ℤ) (h : ⌈t_max / dt⌉ = c) :
    numRecorded t_max dt = c.toNat - 1 := by
  unfold numRecorded
  rw [numTimePoints_eq t_max dt c h]

theorem run_simulation_eval (n : ℕ) (W : Fin n → Fin n → ℚ) (V : Fin n → ℚ)
    (tau_m v_reset v_thresh membr_R t_max dt : ℚ) (c : ℤ)
    (h : ⌈t_max / dt⌉ = c) :
    run_simulation n W V tau_m v_reset v_thresh membr_R t_max dt =
      simSteps n W tau_m v_reset v_thresh membr_R dt (c.toNat - 1) V := by
  unfold run_simulation numTimePoints
  rw [h]

theorem one_le_ceil_of_pos {t_max dt : ℚ} (hdt : 0 < dt) (ht : 0 < t_max) :
    1 ≤ ⌈t_max / dt⌉ :=
  Int.ceil_pos.mpr (div_pos ht hdt)

theorem ceil_le_one_of_le {t_max dt : ℚ} (hdt : 0 < dt) (h : t_max ≤ dt) :
    ⌈t_max / dt⌉ ≤ 1 := by
  rw [show (1 : ℤ) = ((1 : ℕ) : ℤ) by norm_num, Int.ceil_le]
  push_cast
  exact (div_le_one hdt).mpr h

theorem simSteps2_eq_simSteps (n : ℕ) (W : Fin n → Fin n → ℚ)
    (tau_m v_reset v_thresh membr_R dt : ℚ) (k : ℕ) (V : Fin n → ℚ) :
    simSteps2 n W tau_m v_reset v_thresh membr_R dt k V =
      simSteps n W tau_m v_reset v_thresh membr_R dt k V := by
  induction k generalizing V with
  | zero => rfl
  | succ k ih =>
    exact congrArg₂ List.cons rfl (ih _)

theorem potentialAfter_succ (n : ℕ) (W : Fin n → Fin n → ℚ)
    (tau_m v_reset v_thresh membr_R dt : ℚ) (V0 : Fin n → ℚ) (k : ℕ) :
    potentialAfter n W tau_m v_reset v_thresh membr_R dt V0 (k + 1) =
      (run_step n (potentialAfter n W tau_m v_reset v_thresh membr_R dt V0 k)
        v_thresh v_reset W tau_m dt membr_R).1 := by
  rw [potentialAfter, Function.iterate_succ_apply']
  rfl

theorem step_no_spike (n : ℕ) (W : Fin n → Fin n → ℚ) (V : Fin n → ℚ)
    (tau_m v_reset v_thresh membr_R dt : ℚ) (hV : ∀ i, V i < v_thresh) :
    ∀ i, (run_step n V v_thresh v_reset W tau_m dt membr_R).2 i = false := by
  intro i
  simp only [run_step, spikeDetect, ge_iff_le, decide_eq_false_iff_not]
  exact not_le.mpr (hV i)

theorem step_zeroW_formula (n : ℕ) (W : Fin n → Fin n → ℚ) (V : Fin n → ℚ)
    (tau_m v_reset v_thresh membr_R dt : ℚ) (hW : ∀ i j, W i j = 0)
    (hV : ∀ i, V i < v_thresh) :
    ∀ i, (run_step n V v_thresh v_reset W tau_m dt membr_R).1 i - v_reset =
      (1 - dt / tau_m) * (V i - v_reset) := by
  intro i
  have hs : ¬ v_thresh ≤ V i := not_le.mpr (hV i)
  simp only [run_step, stepdV, spikeDetect, resetWhere, synCurrent, ge_iff_le,
    hs, decide_eq_true_eq, if_neg, boolVal]
  rw [Finset.sum_congr rfl (fun j _ => by rw [hW i j, zero_mul])]
  simp
  ring

theorem quiescent_step_lt (n : ℕ) (W : Fin n → Fin n → ℚ) (V : Fin n → ℚ)
    (tau_m v_reset v_thresh membr_R dt : ℚ) (hW : ∀ i j, W i j = 0)
    (htau : 0 < tau_m) (hdt : 0 < dt) (hle : dt ≤ tau_m)
    (hrt : v_reset < v_thresh) (hV : ∀ i, V i < v_thresh) :
    ∀ i, (run_step n V v_thresh v_reset W tau_m dt membr_R).1 i < v_thresh := by
  intro i
  have hf := step_zeroW_formula n W V tau_m v_reset v_thresh membr_R dt hW hV i
  have hl0 : 0 ≤ 1 - dt / tau_m := by
    have := (div_le_one htau).mpr hle
    linarith
  have hl1 : dt / tau_m ≤ 1 := (div_le_one htau).mpr hle
  have hpos : 0 < dt / tau_m * (v_thresh - v_reset) :=
    mul_pos (div_pos hdt htau) (sub_pos.mpr hrt)
  have h2 : 0 ≤ (1 - dt / tau_m) * (v_thresh - V i) :=
    mul_nonneg hl0 (sub_pos.mpr (hV i)).le
  linarith [hf, hpos, h2]

theorem quiescent_potential_lt (n : ℕ) (W : Fin n → Fin n → ℚ)
    (V0 : Fin n → ℚ) (tau_m v_reset v_thresh membr_R dt : ℚ)
    (hW : ∀ i j, W i j = 0) (htau : 0 < tau_m) (hdt : 0 < dt)
    (hle : dt ≤ tau_m) (hrt : v_reset < v_thresh)
    (hV0 : ∀ i, V0 i < v_thresh) :
    ∀ k i, potentialAfter n W tau_m v_reset v_thresh membr_R dt V0 k i <
      v_thresh := by
  intro k
  induction k with
  | zero => exact hV0
  | succ k ih =>
    intro i
    rw [potentialAfter, Function.iterate_succ_apply']
    exact quiescent_step_lt n W _ tau_m v_reset v_thresh membr_R dt hW htau
      hdt hle hrt ih i

end LIF

/-- C1: for every step of the simulation, the step transformation computes
`spiked` from the step-entry potentials, resets spiking neurons to `v_reset`
before the synaptic current `I_syn[i] = Σ_j W[i][j]·spiked[j]` is applied,
and adds `dV[i] = (dt/tau_m)·(−V[i] + v_reset + membr_R·I_syn[i])` to the
post-reset potential; a non-spiking neuron ends at its step-entry value plus
that increment, and a spiking neuron's `dV` is computed from `v_reset`. -/
theorem LIF.C1_step_rule (n : ℕ) (W : Fin n → Fin n → ℚ) (V0 : Fin n → ℚ)
    (tau_m v_reset v_thresh membr_R t_max dt : ℚ) (k : ℕ)
    (hk : k < numRecorded t_max dt) :
    stepRule n W V0 tau_m v_reset v_thresh membr_R t_max dt k := by
  unfold stepRule
  rw [run_simulation_getD n W V0 tau_m v_reset v_thresh membr_R t_max dt k hk]
  refine ⟨fun i => rfl, fun i h => ?_, fun i h => ?_⟩
  · rw [potentialAfter, Function.iterate_succ_apply']
    simp only [maskAt, run_step, spikeDetect, potentialAfter,
      decide_eq_false_iff_not, ge_iff_le] at h
    simp [stepV, run_step, stepdV, resetWhere, spikeDetect, maskAt,
      potentialAfter, synCurrent, h]
  · simp only [maskAt, run_step, spikeDetect, potentialAfter,
      decide_eq_true_eq, ge_iff_le] at h
    simp [stepdV, resetWhere, spikeDetect, maskAt, run_step, potentialAfter,
      synCurrent, h]

/-- C1 witness: the step rule instantiated on a concrete one-neuron run. -/
theorem LIF.C1_step_rule_witness :
    0 < LIF.numRecorded 2 1 ∧
      LIF.stepRule 1 (fun _ _ => 0) (fun _ => 0) 1 0 1 1 2 1 0 :=
  ⟨by rw [LIF.numRecorded_eq 2 1 2 (by norm_num)]; decide,
    LIF.C1_step_rule 1 (fun _ _ => 0) (fun _ => 0) 1 0 1 1 2 1 0
      (by rw [LIF.numRecorded_eq 2 1 2 (by norm_num)]; decide)⟩

/-- C2: the `run_step`-based `run_simulation` and the inlined variant return
identical spike trains on every input. -/
theorem LIF.C2_variants_equivalent (n : ℕ) (W : Fin n → Fin n → ℚ)
    (V : Fin n → ℚ) (tau_m v_reset v_thresh membr_R t_max dt : ℚ)
    (hdt : 0 < dt) (htau : 0 < tau_m) :
    run_simulation2 n W V tau_m v_reset v_thresh membr_R t_max dt =
      run_simulation n W V tau_m v_reset v_thresh membr_R t_max dt := by
  unfold run_simulation2 run_simulation
  exact simSteps2_eq_simSteps ..

/-- C2 witness: the equivalence instantiated on a concrete two-neuron run. -/
theorem LIF.C2_variants_equivalent_witness :
    (0 : ℚ) < 1 ∧
      LIF.run_simulation2 2 (fun _ _ => 5) (fun _ => 2) 1 0 1 1 3 1 =
        LIF.run_simulation 2 (fun _ _ => 5) (fun _ => 2) 1 0 1 1 3 1 :=
  ⟨by norm_num,
    LIF.C2_variants_equivalent 2 (fun _ _ => 5) (fun _ => 2) 1 0 1 1 3 1
      (by norm_num) (by norm_num)⟩

/-- C3: if the `k`-th recorded spike mask is true at neuron `i`, the
potential of neuron `i` immediately after step `k` equals exactly `v_reset`,
regardless of the injected synaptic current. -/
theorem LIF.C3_reset_invariant (n : ℕ) (W : Fin n → Fin n → ℚ)
    (V0 : Fin n → ℚ) (tau_m v_reset v_thresh membr_R t_max dt : ℚ)
    (k : ℕ) (i : Fin n) (hdt : 0 < dt) (ht : 0 < t_max)
    (hk : k < numRecorded t_max dt)
    (hspike : (run_simulation n W V0 tau_m v_reset v_thresh membr_R t_max
      dt).getD k (fun _ => false) i = true) :
    potentialAfter n W tau_m v_reset v_thresh membr_R dt V0 (k + 1) i =
      v_reset := by
  rw [run_simulation_getD n W V0 tau_m v_reset v_thresh membr_R t_max dt k hk]
    at hspike
  simp only [maskAt, run_step, spikeDetect, potentialAfter,
    decide_eq_true_eq, ge_iff_le] at hspike
  rw [potentialAfter, Function.iterate_succ_apply']
  simp [stepV, run_step, resetWhere, spikeDetect, hspike]

/-- C3 witness: the reset invariant at a concrete spiking step. -/
theorem LIF.C3_reset_invariant_witness :
    (0 : ℚ) < 1 ∧ (0 : ℚ) < 2 ∧ 0 < LIF.numRecorded 2 1 ∧
      (LIF.run_simulation 1 (fun _ _ => 0) (fun _ => 3) 1 0 1 1 2 1).getD 0
        (fun _ => false) 0 = true ∧
      LIF.potentialAfter 1 (fun _ _ => 0) 1 0 1 1 1 (fun _ => 3) 1 0 = 0 :=
  ⟨by norm_num, by norm_num,
    by rw [LIF.numRecorded_eq 2 1 2 (by norm_num)]; decide,
    by
      rw [LIF.run_simulation_eval 1 (fun _ _ => 0) (fun _ => 3) 1 0 1 1 2 1 2
        (by norm_num)]
      decide,
    LIF.C3_reset_invariant 1 (fun _ _ => 0) (fun _ => 3) 1 0 1 1 2 1 0 0
      (by norm_num) (by norm_num)
      (by rw [LIF.numRecorded_eq 2 1 2 (by norm_num)]; decide)
      (by
        rw [LIF.run_simulation_eval 1 (fun _ _ => 0) (fun _ => 3) 1 0 1 1 2 1 2
          (by norm_num)]
        decide)⟩

/-- C4: the spike train has exactly `⌈t_max/dt⌉ − 1` entries (clamped at 0),
and in particular `t_max ≤ dt` yields an empty spike train, not an error. -/
theorem LIF.C4_step_count (n : ℕ) (W : Fin n → Fin n → ℚ) (V : Fin n → ℚ)
    (tau_m v_reset v_thresh membr_R t_max dt : ℚ)
    (hdt : 0 < dt) (ht : 0 < t_max) :
    (run_simulation n W V tau_m v_reset v_thresh membr_R t_max dt).length =
        (⌈t_max / dt⌉ - 1).toNat ∧
      (t_max ≤ dt →
        (run_simulation n W V tau_m v_reset v_thresh membr_R t_max
          dt).length = 0) := by
  have h1 : 1 ≤ ⌈t_max / dt⌉ := one_le_ceil_of_pos hdt ht
  constructor
  · rw [run_simulation_length]
    unfold numRecorded numTimePoints
    omega
  · intro h
    have h2 : ⌈t_max / dt⌉ ≤ 1 := ceil_le_one_of_le hdt h
    rw [run_simulation_length]
    unfold numRecorded numTimePoints
    omega

/-- C4 witness: step counts of a run with `t_max/dt = 5/2` and a run with
`t_max ≤ dt`, both on one neuron. -/
theorem LIF.C4_step_count_witness :
    ((0 : ℚ) < 2 ∧ (0 : ℚ) < 5 ∧
      (LIF.run_simulation 1 (fun _ _ => 0) (fun _ => 0) 1 0 1 1 5 2).length =
        (⌈(5 : ℚ) / 2⌉ - 1).toNat) ∧
    ((0 : ℚ) < 2 ∧ (0 : ℚ) < 1 ∧
      (LIF.run_simulation 1 (fun _ _ => 0) (fun _ => 0) 1 0 1 1 1 2).length =
        0) :=
  ⟨⟨by norm_num, by norm_num,
    (LIF.C4_step_count 1 (fun _ _ => 0) (fun _ => 0) 1 0 1 1 5 2 (by norm_num)
      (by norm_num)).1⟩,
   ⟨by norm_num, by norm_num,
    (LIF.C4_step_count 1 (fun _ _ => 0) (fun _ => 0) 1 0 1 1 1 2 (by norm_num)
      (by norm_num)).2 (by norm_num)⟩⟩


/-- C5 counterexample: with `tau_m = 1`, `dt = 3` (so `dt > tau_m`), the
all-zero 1×1 matrix and `V0 = [1] < v_thresh = 2`, the original claim's
hypotheses hold, yet the distance to `v_reset = 0` grows after the first
step (from 1 to 2) and the neuron spikes at recorded step index 2. -/
theorem LIF.C5_counterexample :
    (0 : ℚ) < 3 ∧ (0 : ℚ) < 1 ∧ (1 : ℚ) < 2 ∧
      (LIF.run_simulation 1 (fun _ _ => 0) (fun _ => 1) 1 0 2 1 12 3).getD
        2 (fun _ => false) 0 = true ∧
      ¬ |LIF.potentialAfter 1 (fun _ _ => 0) 1 0 2 1 3 (fun _ => 1) 1 0 -
            0| ≤
          |LIF.potentialAfter 1 (fun _ _ => 0) 1 0 2 1 3 (fun _ => 1) 0 0 -
            0| := by
  refine ⟨by norm_num, by norm_num, by norm_num, ?_, ?_⟩
  · rw [LIF.run_simulation_getD 1 (fun _ _ => 0) (fun _ => 1) 1 0 2 1 12 3 2
      (by rw [LIF.numRecorded_eq 12 3 4 (by norm_num)]; omega)]
    norm_num [LIF.maskAt, LIF.potentialAfter, LIF.stepV, LIF.run_step,
      LIF.stepdV, LIF.spikeDetect, LIF.resetWhere, LIF.synCurrent, LIF.boolVal,
      Function.iterate_succ_apply, Function.iterate_zero_apply]
  · norm_num [LIF.potentialAfter, LIF.stepV, LIF.run_step, LIF.stepdV,
      LIF.spikeDetect, LIF.resetWhere, LIF.synCurrent, LIF.boolVal,
      Function.iterate_succ_apply, Function.iterate_zero_apply]

/-- C5 (amended): the no-spike quiescence holds under the additional
preconditions `dt ≤ tau_m` (the forward-Euler step must not overshoot) and
`v_reset < v_thresh` (the data-model invariant that the threshold lies above
the reset value): with the all-zero matrix and `V0[i] < v_thresh` for all
`i`, no neuron ever spikes, `|V[i] − v_reset|` never increases, and `V[i]`
never crosses to the far side of `v_reset`. -/
theorem LIF.C5_quiescence_amended (n : ℕ) (W : Fin n → Fin n → ℚ)
    (V0 : Fin n → ℚ) (tau_m v_reset v_thresh membr_R t_max dt : ℚ)
    (hW : ∀ i j, W i j = 0) (hV0 : ∀ i, V0 i < v_thresh)
    (htau : 0 < tau_m) (hdt : 0 < dt) (hle : dt ≤ tau_m)
    (hrt : v_reset < v_thresh) :
    quiescentDecay n W V0 tau_m v_reset v_thresh membr_R t_max dt := by
  have hlt := quiescent_potential_lt n W V0 tau_m v_reset v_thresh membr_R dt
    hW htau hdt hle hrt hV0
  refine ⟨?_, ?_, ?_⟩
  · intro k hk i
    rw [run_simulation_getD n W V0 tau_m v_reset v_thresh membr_R t_max dt k hk]
    exact step_no_spike n W _ tau_m v_reset v_thresh membr_R dt (hlt k) i
  · intro k i
    have hf := step_zeroW_formula n W _ tau_m v_reset v_thresh membr_R dt hW
      (hlt k) i
    rw [potentialAfter_succ, hf]
    have hl0 : 0 ≤ 1 - dt / tau_m := by
      have := (div_le_one htau).mpr hle
      linarith
    calc |(1 - dt / tau_m) *
          (potentialAfter n W tau_m v_reset v_thresh membr_R dt V0 k i -
            v_reset)| =
        (1 - dt / tau_m) *
          |potentialAfter n W tau_m v_reset v_thresh membr_R dt V0 k i -
            v_reset| := by
          rw [abs_mul, abs_of_nonneg hl0]
      _ ≤ 1 *
          |potentialAfter n W tau_m v_reset v_thresh membr_R dt V0 k i -
            v_reset| := by
          apply mul_le_mul_of_nonneg_right _ (abs_nonneg _)
          have : 0 ≤ dt / tau_m := div_nonneg hdt.le htau.le
          linarith
      _ = _ := one_mul _
  · intro k i
    have hf := step_zeroW_formula n W _ tau_m v_reset v_thresh membr_R dt hW
      (hlt k) i
    rw [potentialAfter_succ, hf]
    have hl0 : 0 ≤ 1 - dt / tau_m := by
      have := (div_le_one htau).mpr hle
      linarith
    have := mul_nonneg hl0 (mul_self_nonneg
      (potentialAfter n W tau_m v_reset v_thresh membr_R dt V0 k i - v_reset))
    nlinarith [this]

/-- C5 witness: the amended quiescence on a concrete one-neuron run with
`dt = 1 ≤ tau_m = 2`. -/
theorem LIF.C5_quiescence_amended_witness :
    (1 : ℚ) / 2 < 1 ∧ (0 : ℚ) < 2 ∧ (0 : ℚ) < 1 ∧ (1 : ℚ) ≤ 2 ∧
      (0 : ℚ) < 1 ∧
      LIF.quiescentDecay 1 (fun _ _ => 0) (fun _ => 1 / 2) 2 0 1 1 3 1 :=
  ⟨by norm_num, by norm_num, by norm_num, by norm_num, by norm_num,
    LIF.C5_quiescence_amended 1 (fun _ _ => 0) (fun _ => 1 / 2) 2 0 1 1 3 1
      (fun _ _ => rfl) (fun _ => by norm_num) (by norm_num) (by norm_num)
      (by norm_num) (by norm_num)⟩

/-- C7: the two-neuron feedback scenario (`W=[[0,5],[5,0]]`, `v_reset=0`,
`v_thresh=1`, `membr_R=1`, `tau_m=1`, `dt=1`, `V0=[1.5,0]`): recorded step 1
has mask `[true, false]` and post-step potentials `[0, 5]`; at recorded
step 2 neuron 1 spikes, ends at exactly `v_reset = 0`, and neuron 0 receives
the injected current 5. -/
theorem LIF.C7_two_neuron (t_max : ℚ) (h2 : 2 ≤ numRecorded t_max 1) :
    (run_simulation 2 twoNeuronW twoNeuronV0 1 0 1 1 t_max 1).getD 0
        (fun _ => false) 0 = true ∧
      (run_simulation 2 twoNeuronW twoNeuronV0 1 0 1 1 t_max 1).getD 0
        (fun _ => false) 1 = false ∧
      potentialAfter 2 twoNeuronW 1 0 1 1 1 twoNeuronV0 1 0 = 0 ∧
      potentialAfter 2 twoNeuronW 1 0 1 1 1 twoNeuronV0 1 1 = 5 ∧
      (run_simulation 2 twoNeuronW twoNeuronV0 1 0 1 1 t_max 1).getD 1
        (fun _ => false) 1 = true ∧
      potentialAfter 2 twoNeuronW 1 0 1 1 1 twoNeuronV0 2 1 = 0 ∧
      potentialAfter 2 twoNeuronW 1 0 1 1 1 twoNeuronV0 2 0 = 5 := by
  have h0 : 0 < numRecorded t_max 1 := by omega
  have h1 : 1 < numRecorded t_max 1 := by omega
  rw [run_simulation_getD 2 twoNeuronW twoNeuronV0 1 0 1 1 t_max 1 0 h0,
    run_simulation_getD 2 twoNeuronW twoNeuronV0 1 0 1 1 t_max 1 1 h1]
  refine ⟨?_, ?_, ?_, ?_, ?_, ?_, ?_⟩ <;>
    norm_num [maskAt, potentialAfter, stepV, run_step, stepdV, spikeDetect,
      resetWhere, synCurrent, boolVal, twoNeuronW, twoNeuronV0,
      Fin.sum_univ_two, Function.iterate_succ_apply, Function.iterate_zero_apply]

/-- C7 witness: the scenario run with `t_max = 3`, which records exactly two
steps. -/
theorem LIF.C7_two_neuron_witness :
    2 ≤ LIF.numRecorded 3 1 ∧
      ((LIF.run_simulation 2 LIF.twoNeuronW LIF.twoNeuronV0 1 0 1 1 3 1).getD 0
          (fun _ => false) 0 = true ∧
        (LIF.run_simulation 2 LIF.twoNeuronW LIF.twoNeuronV0 1 0 1 1 3 1).getD
          0 (fun _ => false) 1 = false ∧
        LIF.potentialAfter 2 LIF.twoNeuronW 1 0 1 1 1 LIF.twoNeuronV0 1 0 =
          0 ∧
        LIF.potentialAfter 2 LIF.twoNeuronW 1 0 1 1 1 LIF.twoNeuronV0 1 1 =
          5 ∧
        (LIF.run_simulation 2 LIF.twoNeuronW LIF.twoNeuronV0 1 0 1 1 3 1).getD
          1 (fun _ => false) 1 = true ∧
        LIF.potentialAfter 2 LIF.twoNeuronW 1 0 1 1 1 LIF.twoNeuronV0 2 1 =
          0 ∧
        LIF.potentialAfter 2 LIF.twoNeuronW 1 0 1 1 1 LIF.twoNeuronV0 2 0 =
          5) :=
  ⟨by rw [LIF.numRecorded_eq 3 1 3 (by norm_num)]; decide,
    LIF.C7_two_neuron 3 (by rw [LIF.numRecorded_eq 3 1 3 (by norm_num)]; decide)⟩

/-- C9: the first recorded spike mask is exactly the elementwise comparison
of the untouched initial potentials against the threshold; in particular any
neuron starting at or above `v_thresh` spikes in entry 0 of the returned
spike train. -/
theorem LIF.C9_first_mask (n : ℕ) (W : Fin n → Fin n → ℚ) (V0 : Fin n → ℚ)
    (tau_m v_reset v_thresh membr_R t_max dt : ℚ)
    (h1 : 1 ≤ numRecorded t_max dt) :
    ((run_simulation n W V0 tau_m v_reset v_thresh membr_R t_max dt).getD 0
        (fun _ => false) =
      fun i => decide (V0 i ≥ v_thresh)) ∧
    (∀ i, v_thresh ≤ V0 i →
      (run_simulation n W V0 tau_m v_reset v_thresh membr_R t_max dt).getD 0
        (fun _ => false) i = true) := by
  rw [run_simulation_getD n W V0 tau_m v_reset v_thresh membr_R t_max dt 0 h1]
  refine ⟨rfl, fun i hi => ?_⟩
  simp [maskAt, run_step, spikeDetect, potentialAfter, hi]

/-- C9 witness: a neuron starting at `2 ≥ v_thresh = 1` spikes in the first
recorded mask. -/
theorem LIF.C9_first_mask_witness :
    1 ≤ LIF.numRecorded 2 1 ∧
      ((LIF.run_simulation 1 (fun _ _ => 0) (fun _ => 2) 1 0 1 1 2 1).getD 0
          (fun _ => false) =
        fun i => decide ((fun _ : Fin 1 => (2 : ℚ)) i ≥ 1)) ∧
      (∀ i, (1 : ℚ) ≤ (fun _ : Fin 1 => (2 : ℚ)) i →
        (LIF.run_simulation 1 (fun _ _ => 0) (fun _ => 2) 1 0 1 1 2 1).getD 0
          (fun _ => false) i = true) :=
  ⟨by rw [LIF.numRecorded_eq 2 1 2 (by norm_num)]; decide,
    LIF.C9_first_mask 1 (fun _ _ => 0) (fun _ => 2) 1 0 1 1 2 1
      (by rw [LIF.numRecorded_eq 2 1 2 (by norm_num)]; decide)⟩

namespace LIFShapes

theorem except_bind_ok {ε α β : Type} (a : α) (f : α → Except ε β) :
    (Except.ok a : Except ε α) >>= f = f a := rfl

theorem except_bind_error {ε α β : Type} (e : ε) (f : α → Except ε β) :
    (Except.error e : Except ε α) >>= f = Except.error e := rfl

theorem run_step_nil (v_thresh v_reset tau_m dt membr_R : ℚ) :
    run_step [] v_thresh v_reset [] tau_m dt membr_R = .ok ([], []) := rfl

theorem simLoopS_nil (tau_m v_reset v_thresh membr_R dt : ℚ) (k : ℕ) :
    simLoopS [] tau_m v_reset v_thresh membr_R dt k [] =
      .ok (List.replicate k []) := by
  induction k with
  | zero => rfl
  | succ k ih =>
    simp [simLoopS, run_step_nil, ih, List.replicate_succ, except_bind_ok,
      Except.map_ok]

theorem run_simulationS_eval (W : List (List ℚ)) (V : List ℚ)
    (tau_m v_reset v_thresh membr_R t_max dt : ℚ) (c : ℤ)
    (h : ⌈t_max / dt⌉ = c) :
    run_simulationS W V tau_m v_reset v_thresh membr_R t_max dt =
      simLoopS W tau_m v_reset v_thresh membr_R dt (c.toNat - 1) V := by
  unfold run_simulationS LIF.numTimePoints
  rw [h]

theorem run_step_dim_error (v_prev : List ℚ) (v_thresh v_reset : ℚ)
    (W : List (List ℚ)) (tau_m dt membr_R : ℚ) (p : ℕ)
    (hW : W ≠ []) (hrow : ∀ row ∈ W, row.length = p) (hp : p ≠ v_prev.length) :
    run_step v_prev v_thresh v_reset W tau_m dt membr_R = .error dimErr := by
  rcases W with _ | ⟨r, rs⟩
  · exact absurd rfl hW
  have hr : r.length = p := hrow r (List.mem_cons_self r rs)
  have hall : ((r :: rs).all fun row => row.length == v_prev.length) = false := by
    simp only [List.all_cons, hr, Bool.and_eq_false_iff]
    exact Or.inl (by simpa using hp)
  simp [run_step, whereV, dotMV, List.length_map, hall, except_bind_ok,
    except_bind_error, Except.map_error]

theorem simLoopS_error (W : List (List ℚ))
    (tau_m v_reset v_thresh membr_R dt : ℚ) (k : ℕ) (V : List ℚ)
    (e : String) (h : run_step V v_thresh v_reset W tau_m dt membr_R = .error e) :
    simLoopS W tau_m v_reset v_thresh membr_R dt (k + 1) V = .error e := by
  simp [simLoopS, h, except_bind_error]

end LIFShapes

/-- C6 counterexample: a non-square 1×2 weight matrix with a length-2 `V0`
does not make `run_simulation` fail: the matrix–vector product is
well-formed (row length 2 matches the spike vector) and the length-1 result
broadcasts through the voltage update, so the run completes and returns a
spike train. -/
theorem LIFShapes.C6_counterexample :
    ([[(0 : ℚ), 0]] : List (List ℚ)).length = 1 ∧
      ([(5 : ℚ), 5] : List ℚ).length = 2 ∧
      LIFShapes.run_simulationS [[0, 0]] [5, 5] 1 0 1 1 2 1 =
        .ok [[true, true]] := by
  refine ⟨rfl, rfl, ?_⟩
  rw [LIFShapes.run_simulationS_eval [[0, 0]] [5, 5] 1 0 1 1 2 1 2
    (by norm_num)]
  rfl

/-- C6 (amended): `run_simulation` performs no up-front shape validation; a
mismatch between the row length of `W` and the length of `V0` surfaces as a
dimension-mismatch error raised inside the first executed step (by the
matrix–vector product `W.dot(spiked)`), and only when at least one step runs
and `W` is nonempty — while some non-square `W` (row length equal to the
length of `V0`, e.g. 1×N) complete without any error. -/
theorem LIFShapes.C6_mismatch_first_step (W : List (List ℚ)) (V0 : List ℚ)
    (tau_m v_reset v_thresh membr_R t_max dt : ℚ) (p : ℕ)
    (hW : W ≠ []) (hrow : ∀ row ∈ W, row.length = p) (hp : p ≠ V0.length)
    (hdt : 0 < dt) (hlt : dt < t_max) :
    run_simulationS W V0 tau_m v_reset v_thresh membr_R t_max dt =
      .error dimErr := by
  have hc : 2 ≤ ⌈t_max / dt⌉ := by
    have h1 : (1 : ℚ) < t_max / dt := (one_lt_div hdt).mpr hlt
    have := Int.lt_ceil.mpr (by exact_mod_cast h1 : ((1 : ℤ) : ℚ) < t_max / dt)
    omega
  obtain ⟨m, hm⟩ : ∃ m, LIF.numTimePoints t_max dt - 1 = m + 1 :=
    ⟨LIF.numTimePoints t_max dt - 2, by unfold LIF.numTimePoints; omega⟩
  unfold run_simulationS
  rw [hm]
  exact simLoopS_error W tau_m v_reset v_thresh membr_R dt m V0 dimErr
    (run_step_dim_error V0 v_thresh v_reset W tau_m dt membr_R p hW hrow hp)

/-- C6 witness: a 2×1 weight matrix with a length-2 `V0` errors during the
first step. -/
theorem LIFShapes.C6_mismatch_first_step_witness :
    ([[(0 : ℚ)], [0]] : List (List ℚ)) ≠ [] ∧
      (∀ row ∈ ([[(0 : ℚ)], [0]] : List (List ℚ)), row.length = 1) ∧
      (1 : ℕ) ≠ ([(5 : ℚ), 5] : List ℚ).length ∧ (0 : ℚ) < 1 ∧ (1 : ℚ) < 2 ∧
      LIFShapes.run_simulationS [[0], [0]] [5, 5] 1 0 1 1 2 1 =
        .error LIFShapes.dimErr :=
  ⟨by simp, by simp, by simp, by norm_num, by norm_num,
    LIFShapes.C6_mismatch_first_step [[0], [0]] [5, 5] 1 0 1 1 2 1 1
      (by simp) (by simp) (by simp) (by norm_num) (by norm_num)⟩

/-- C10: the degenerate `N = 0` network (0×0 matrix, empty potential vector)
is not an error: the run completes and returns `⌈t_max/dt⌉ − 1` empty spike
masks. -/
theorem LIFShapes.C10_empty_network (tau_m v_reset v_thresh membr_R t_max dt : ℚ)
    (hdt : 0 < dt) (ht : 0 < t_max) :
    run_simulationS [] [] tau_m v_reset v_thresh membr_R t_max dt =
      .ok (List.replicate ((⌈t_max / dt⌉ - 1).toNat) []) := by
  have h1 : 1 ≤ ⌈t_max / dt⌉ := LIF.one_le_ceil_of_pos hdt ht
  have hk : LIF.numTimePoints t_max dt - 1 = (⌈t_max / dt⌉ - 1).toNat := by
    unfold LIF.numTimePoints
    omega
  unfold run_simulationS
  rw [simLoopS_nil, hk]

/-- C10 witness: the empty network run with `t_max = 3`, `dt = 1` returns
two empty masks. -/
theorem LIFShapes.C10_empty_network_witness :
    (0 : ℚ) < 1 ∧ (0 : ℚ) < 3 ∧
      LIFShapes.run_simulationS [] [] 1 0 1 1 3 1 =
        .ok (List.replicate ((⌈(3 : ℚ) / 1⌉ - 1).toNat) []) :=
  ⟨by norm_num, by norm_num,
    LIFShapes.C10_empty_network 1 0 1 1 3 1 (by norm_num) (by norm_num)⟩
